import Mathlib

set_option synthInstance.maxSize 1000

/-!
Shallow embedding of the SHARPR `Normalize.py` script and verification of its
specification claims.

The script is Python 2 code (it loops with `itertools.izip_longest`).  Its
per-pair pipeline is:

1. load the RNA and the DNA count table (`pd.read_csv(..., sep='\t',
   index_col=0)`): a string row key plus integer sample-count columns;
2. retain `df_dna_copy = df_dna.copy()`;
3. if `isinstance(args.pcd, int) & isinstance(args.pcr, int)` holds, add the
   pseudocounts to every RNA and DNA cell, else print a warning and leave the
   tables unmodified;
4. per-column sums, `log2(cell / column_sum)` for each table, and the
   elementwise difference of the two normalized tables;
5. keep a ratio cell only where `df_dna_copy[:] >= args.cutoff`, the other
   cells become NaN;
6. per row: `Ratio` is the NaN-skipping median, `#barcodes` the count of
   non-NaN cells, and the two columns are written to `args.outfile`.

Tables are embedded positionally; IEEE-754 doubles are idealized, with the
finite values that actually arise carried exactly: a float produced by the
pipeline is either NaN, an infinity, an exact rational (division stage) or the
base-2 logarithm of an exact positive rational (log/ratio stage).  A separate
nonconstructive interpretation maps the symbolic values into `ℝ`.
-/

/-- A loaded count table, kept positionally: each entry is the row key from
the first column of the tab-separated file together with the integer sample
counts of that row. -/
abbrev Table := List (String × List Int)

/-- Classification of an IEEE double produced by the division stage.  The
finite case is exact: pandas divides integer counts, so the finite quotients
are rationals. -/
inductive FV where
  | nan
  | ninf
  | pinf
  | fin (q : ℚ)
deriving DecidableEq

/-- Classification of an IEEE double produced by the `np.log2` stage and by
the ratio subtraction.  `LV.lg q` denotes the real number `log2 q`; the
pipeline only builds it for `0 < q`. -/
inductive LV where
  | nan
  | ninf
  | pinf
  | lg (q : ℚ)
deriving DecidableEq

/-- Exact division of two rationals, phrased through `Rat.divInt` so that it
evaluates by kernel reduction; `qdiv_eq_div` below shows it is ordinary
division. -/
def qdiv (a b : ℚ) : ℚ :=
  Rat.divInt (a.num * (b.den : Int)) ((a.den : Int) * b.num)

/-- `qdiv` is ordinary field division on `ℚ`. -/
theorem qdiv_eq_div (a b : ℚ) : qdiv a b = a / b := by
  rcases eq_or_ne b 0 with hb | hb
  · subst hb
    simp [qdiv]
  · have hbd : ((b.den : ℚ)) ≠ 0 := by
      exact_mod_cast b.den_nz
    have had : ((a.den : ℚ)) ≠ 0 := by
      exact_mod_cast a.den_nz
    have hbn : ((b.num : ℚ)) ≠ 0 := by
      exact_mod_cast Rat.num_ne_zero.mpr hb
    have hA : ((a.num : ℚ)) = a * (a.den : ℚ) := by
      field_simp
    have hB : ((b.num : ℚ)) = b * (b.den : ℚ) := by
      field_simp
    rw [qdiv, Rat.divInt_eq_div]
    push_cast
    rw [div_eq_div_iff (by exact mul_ne_zero had hbn) hb, hA, hB]
    ring

/-- Float division `cell / column_sum` (IEEE semantics: `0/0` is NaN, a
nonzero numerator over zero is a signed infinity, otherwise the exact
quotient `(v : ℚ) / (s : ℚ)`, built with `Rat.divInt` which is that quotient
by `Rat.divInt_eq_div`). -/
def fdiv (v s : Int) : FV :=
  if s = 0 then
    if v = 0 then FV.nan
    else if 0 < v then FV.pinf
    else FV.ninf
  else FV.fin (Rat.divInt v s)

/-- The `np.log2` of a classified double: `log2 NaN = NaN`, `log2 (+inf) =
+inf`, `log2 (-inf) = NaN`, `log2 q = NaN` for `q < 0`, `log2 0 = -inf`, and
an exact symbolic logarithm for `0 < q`. -/
def log2F : FV → LV
  | FV.nan => LV.nan
  | FV.pinf => LV.pinf
  | FV.ninf => LV.nan
  | FV.fin q =>
    if q < 0 then LV.nan
    else if q = 0 then LV.ninf
    else LV.lg q

/-- IEEE subtraction on classified log values.  On two finite logarithms it is
exact: `log2 a - log2 b = log2 (a / b)` (the soundness lemma
`LV.interp_sub_lg` below justifies the symbolic form). -/
def LV.sub : LV → LV → LV
  | LV.nan, _ => LV.nan
  | _, LV.nan => LV.nan
  | LV.pinf, LV.pinf => LV.nan
  | LV.pinf, _ => LV.pinf
  | LV.ninf, LV.ninf => LV.nan
  | LV.ninf, _ => LV.ninf
  | LV.lg _, LV.pinf => LV.ninf
  | LV.lg _, LV.ninf => LV.pinf
  | LV.lg a, LV.lg b => LV.lg (qdiv a b)

/-- Column sum `df.sum()`: the sum of column `j` over all rows (pandas sums
each column, not each row). -/
def colSum (t : Table) (j : Nat) : Int :=
  (t.map (fun r => r.2.getD j 0)).sum

/-- Uniform pseudocount addition `df += p`. -/
def addPseudo (p : Int) (t : Table) : Table :=
  t.map (fun r => (r.1, r.2.map (fun v => v + p)))

/-- One row of `np.log2(df.div(df.sum()))`: every cell divided by its own
column's total, then `log2`. -/
def normRow (t : Table) (cells : List Int) : List LV :=
  (List.range cells.length).map (fun j => log2F (fdiv (cells.getD j 0) (colSum t j)))

/-- The column-normalized log table `np.log2(df.div(df.sum()))`. -/
def normTable (t : Table) : List (String × List LV) :=
  t.map (fun r => (r.1, normRow t r.2))

/-- The ratio table `df_rna_normalized - df_dna_normalized` (row keys taken
from the RNA table; the two frames are assumed index-aligned, as the script
does). -/
def ratioTable (rna dna : Table) : List (String × List LV) :=
  List.zipWith (fun a b => (a.1, List.zipWith LV.sub a.2 b.2)) (normTable rna) (normTable dna)

/-- The cutoff filter `df_normalized[df_dna_copy[:] >= args.cutoff]`: a ratio
cell is kept where the original DNA count is at least the cutoff and becomes
NaN elsewhere; the shape is unchanged. -/
def applyCutoff (c : Int) (dnaOrig : Table) (rt : List (String × List LV)) :
    List (String × List LV) :=
  List.zipWith
    (fun r d => (r.1, List.zipWith (fun lv dv => if c ≤ dv then lv else LV.nan) r.2 d.2))
    rt dnaOrig

/-- The non-NaN values of a row (what `skipna=True` and `count` look at). -/
def validOf (l : List LV) : List LV :=
  l.filter (fun v => !(v == LV.nan))

/-- Pandas `count(axis=1)`: the number of non-NaN cells of a row. -/
def countValid (l : List LV) : Nat :=
  (validOf l).length

/-- Total order used to sort a row before taking its median: `-inf` below
every finite logarithm below `+inf`, finite logarithms ordered by their
arguments (log2 is strictly increasing).  NaN is placed at the bottom; it
never reaches the sort because the median drops NaN first. -/
def LV.leB : LV → LV → Bool
  | LV.nan, _ => true
  | _, LV.nan => false
  | LV.ninf, _ => true
  | _, LV.ninf => false
  | _, LV.pinf => true
  | LV.pinf, _ => false
  | LV.lg a, LV.lg b => decide (a ≤ b)

/-- The sorting relation as a proposition. -/
def LVle (a b : LV) : Prop := LV.leB a b = true

instance : DecidableRel LVle := fun a b => inferInstanceAs (Decidable (LV.leB a b = true))

instance : IsTotal LV LVle := by
  constructor
  intro a b
  cases a <;> cases b <;> simp [LVle, LV.leB] <;> exact le_total _ _

instance : IsTrans LV LVle := by
  constructor
  intro a b c hab hbc
  cases a <;> cases b <;> cases c <;>
    simp_all [LVle, LV.leB] <;> exact le_trans hab hbc

/-- The result of the row median: either missing (the median of an empty set
of valid values is NaN), the middle value of an odd-length sorted row, or the
IEEE mean of the two middle values of an even-length sorted row (kept
symbolic: the mean of two logarithms is in general not a logarithm of a
rational). -/
inductive MedianR where
  | missing
  | single (v : LV)
  | avg (a b : LV)
deriving DecidableEq

/-- Pandas `median(axis=1, skipna=True)` on one row: drop the NaN cells, sort
the rest, take the middle value (odd count), the mean of the two middle values
(even count), or NaN (no valid value). -/
def medianLV (l : List LV) : MedianR :=
  let s := List.insertionSort LVle (validOf l)
  if s.length = 0 then MedianR.missing
  else if s.length % 2 = 1 then MedianR.single (s.getD ((s.length - 1) / 2) LV.nan)
  else MedianR.avg (s.getD (s.length / 2 - 1) LV.nan) (s.getD (s.length / 2) LV.nan)

/-- One output table: per row key, the `Ratio` median and the `#barcodes`
count, in input row order. -/
abbrev OutTable := List (String × MedianR × Nat)

/-- Lines 80-84: compute the row medians and the row counts of non-NaN cells
and keep exactly those two columns, one output row per input row. -/
def summarize (mt : List (String × List LV)) : OutTable :=
  mt.map (fun r => (r.1, medianLV r.2, countValid r.2))

/-- Python 2 value stored by `argparse` for a `type=int` option: `int(string)`
returns a plain `int` when the value fits the platform word and a `long`
otherwise (the script's `isinstance(..., int)` check distinguishes the two). -/
inductive PyVal where
  | int (n : Int)
  | long (n : Int)
deriving DecidableEq

/-- The `isinstance(v, int)` check of line 61. -/
def PyVal.isInt : PyVal → Bool
  | PyVal.int _ => true
  | PyVal.long _ => false

/-- The numeric value (`int(v)` of lines 64-65; exact for both kinds). -/
def PyVal.toInt : PyVal → Int
  | PyVal.int n => n
  | PyVal.long n => n

/-- Modeling constant: `sys.maxint` of a 64-bit CPython 2 build. -/
def pyMaxInt : Int := 2 ^ 63 - 1

/-- Python 2 packaging of an integer literal value: a plain `int` inside
`[-sys.maxint - 1, sys.maxint]`, a `long` outside. -/
def mkPyInt (n : Int) : PyVal :=
  if -pyMaxInt - 1 ≤ n ∧ n ≤ pyMaxInt then PyVal.int n else PyVal.long n

/-- Leading-whitespace removal. -/
def dropSpaces (cs : List Char) : List Char :=
  cs.dropWhile (fun c => c.isWhitespace)

/-- Surrounding-whitespace removal (Python's `int` ignores it). -/
def trimChars (cs : List Char) : List Char :=
  dropSpaces ((dropSpaces cs.reverse).reverse)

/-- Decimal digit-string value; `none` when empty or containing a non-digit. -/
def digitsVal (cs : List Char) : Option Nat :=
  if cs = [] then none
  else
    cs.foldl
      (fun acc c =>
        match acc with
        | none => none
        | some n => if c.isDigit then some (n * 10 + (c.toNat - 48)) else none)
      (some 0)

/-- Python 2 `int(string)`: optional surrounding whitespace, optional sign,
one or more decimal digits; `none` models the `ValueError` on anything else.
In-range results are plain ints, larger ones are longs. -/
def pyIntVal (s : String) : Option PyVal :=
  match trimChars s.toList with
  | [] => none
  | '+' :: rest => (digitsVal rest).map (fun n => mkPyInt (Int.ofNat n))
  | '-' :: rest => (digitsVal rest).map (fun n => mkPyInt (-(Int.ofNat n)))
  | cs => (digitsVal cs).map (fun n => mkPyInt (Int.ofNat n))

/-- The `argparse` handling of an optional `type=int` argument: an absent
option yields the literal default, an unparseable value aborts the whole
program before any file is touched (`SystemExit`). -/
def parseIntArg (dflt : PyVal) : Option String → Except String PyVal
  | none => Except.ok dflt
  | some s =>
    match pyIntVal s with
    | some v => Except.ok v
    | none => Except.error ("argument error: invalid int value: " ++ s)

/-- Lines 61-65: the pseudocount branch.  When the guard
`not (isinstance(args.pcd, int) & isinstance(args.pcr, int))` fires, only a
warning is printed and the raw tables are used; otherwise both pseudocounts
are added. -/
def pseudoTables (pv dv : PyVal) (rna dna : Table) : Table × Table :=
  if !(dv.isInt && pv.isInt) then (rna, dna)
  else (addPseudo pv.toInt rna, addPseudo dv.toInt dna)

/-- The masked ratio table of one pair: the cutoff filter reads the retained
pre-pseudocount copy `df_dna_copy` (the script copies on line 58, before the
pseudocount branch mutates `df_dna`). -/
def maskedOf (pv dv : PyVal) (c : Int) (rna dna : Table) : List (String × List LV) :=
  applyCutoff c dna (ratioTable (pseudoTables pv dv rna dna).1 (pseudoTables pv dv rna dna).2)

/-- The whole per-pair procedure (lines 56-84): returns the output table that
is written to `args.outfile`. -/
def processPair (pv dv : PyVal) (c : Int) (rna dna : Table) : OutTable :=
  summarize (maskedOf pv dv c rna dna)

/-- The pairing `itertools.izip_longest(rnalist, dnalist)`: the shorter list
is padded with `None`. -/
def zipLongest {α β : Type} : List α → List β → List (Option α × Option β)
  | [], bs => bs.map (fun b => (none, some b))
  | a :: as, [] => (some a, none) :: zipLongest as []
  | a :: as, b :: bs => (some a, some b) :: zipLongest as bs

/-- The per-pair loop: each processed pair appends one write of its output
table to `args.outfile`; a `None` member of a pair crashes `pd.read_csv`
before any write of that iteration (earlier writes remain). -/
def runLoop (pv dv : PyVal) (c : Int) (outfile : String) :
    List (Option Table × Option Table) → List (String × OutTable) × Option String
  | [] => ([], none)
  | (some r, some d) :: rest =>
    let o := processPair pv dv c r d
    let tail := runLoop pv dv c outfile rest
    ((outfile, o) :: tail.1, tail.2)
  | _ => ([], some "TypeError: coercing to Unicode: need string or buffer, NoneType found")

/-- The whole program: parse the three options (aborting on a bad one), then
run the loop over the zipped file lists.  File contents stand in for file
paths; the result is the list of performed writes plus the crash message of a
padded pair, if any. -/
def runProgram (pcrStr pcdStr cutoffStr : Option String) (rnas dnas : List Table)
    (outfile : String) : Except String (List (String × OutTable) × Option String) := do
  let pcr ← parseIntArg (PyVal.int 1) pcrStr
  let pcd ← parseIntArg (PyVal.int 1) pcdStr
  let co ← parseIntArg (PyVal.int 20) cutoffStr
  Except.ok (runLoop pcr pcd co.toInt outfile (zipLongest rnas dnas))

/-- Replay a list of writes on an initially empty file system: a later write
to a path replaces an earlier one. -/
def applyWrites (ws : List (String × OutTable)) : String → Option OutTable :=
  ws.foldl (fun fs w => fun p => if p = w.1 then some w.2 else fs p) (fun _ => none)

/-- Cell access in a table of classified values (default NaN out of range). -/
def lvAt (t : List (String × List LV)) (i j : Nat) : LV :=
  ((t.getD i ("", [])).2).getD j LV.nan

/-- Cell access in a count table (default 0 out of range). -/
def cellAt (t : Table) (i j : Nat) : Int :=
  ((t.getD i ("", [])).2).getD j 0

/-- Interpretation of a classified double as NaN, a signed infinity or an
exact real. -/
inductive FPc where
  | nan
  | ninf
  | pinf
  | fin (x : ℝ)

/-- The real denotation of a classified log value. -/
noncomputable def LV.interp : LV → FPc
  | LV.nan => FPc.nan
  | LV.ninf => FPc.ninf
  | LV.pinf => FPc.pinf
  | LV.lg q => FPc.fin (Real.logb 2 (q : ℝ))

/-- IEEE mean of two classified doubles, `(a + b) / 2`. -/
noncomputable def FPc.mean2 : FPc → FPc → FPc
  | FPc.nan, _ => FPc.nan
  | _, FPc.nan => FPc.nan
  | FPc.pinf, FPc.ninf => FPc.nan
  | FPc.ninf, FPc.pinf => FPc.nan
  | FPc.pinf, _ => FPc.pinf
  | _, FPc.pinf => FPc.pinf
  | FPc.ninf, _ => FPc.ninf
  | _, FPc.ninf => FPc.ninf
  | FPc.fin a, FPc.fin b => FPc.fin ((a + b) / 2)

/-- The real denotation of a median result (missing is NaN, an even count
yields the IEEE mean of the two middle values). -/
noncomputable def MedianR.interp : MedianR → FPc
  | MedianR.missing => FPc.nan
  | MedianR.single v => v.interp
  | MedianR.avg a b => FPc.mean2 a.interp b.interp

/-- Soundness of the symbolic ratio subtraction: on two positive rationals it
denotes exactly the difference of the two base-2 logarithms. -/
theorem LV.interp_sub_lg (a b : ℚ) (ha : 0 < a) (hb : 0 < b) :
    (LV.sub (LV.lg a) (LV.lg b)).interp = FPc.fin (Real.logb 2 (a : ℝ) - Real.logb 2 (b : ℝ)) := by
  have ha' : ((a : ℝ)) ≠ 0 := by exact_mod_cast ha.ne'
  have hb' : ((b : ℝ)) ≠ 0 := by exact_mod_cast hb.ne'
  simp [LV.sub, LV.interp, qdiv_eq_div, Rat.cast_div, Real.logb_div ha' hb']

instance {e a : Type} [DecidableEq e] [DecidableEq a] : DecidableEq (Except e a) := fun x y =>
  match x, y with
  | Except.ok u, Except.ok v =>
    if h : u = v then Decidable.isTrue (by rw [h]) else Decidable.isFalse (by simp [h])
  | Except.error u, Except.error v =>
    if h : u = v then Decidable.isTrue (by rw [h]) else Decidable.isFalse (by simp [h])
  | Except.ok _, Except.error _ => Decidable.isFalse (by simp)
  | Except.error _, Except.ok _ => Decidable.isFalse (by simp)

/-- The normalized table has one cell per input cell: its row `i`, column `j`
entry is `log2` of cell `(i, j)` over the sum of column `j`. -/
theorem lvAt_normTable (t : Table) (i j : Nat) (hi : i < t.length)
    (hj : j < ((t.getD i ("", [])).2).length) :
    lvAt (normTable t) i j = log2F (fdiv (cellAt t i j) (colSum t j)) := by
  have hgd : t.getD i ("", []) = t[i] := List.getD_eq_getElem t _ hi
  have hj' : j < (t[i].2).length := by rw [hgd] at hj; exact hj
  have h1 : i < (normTable t).length := by simpa [normTable] using hi
  rw [lvAt, cellAt, hgd, List.getD_eq_getElem _ _ h1]
  simp only [normTable, List.getElem_map]
  have hlen : j < (normRow t (t[i].2)).length := by simpa [normRow] using hj'
  rw [List.getD_eq_getElem _ _ hlen, List.getD_eq_getElem _ _ hj']
  simp [normRow, List.getElem?_eq_getElem hj']

/-- Pseudocount addition does not change the number of rows. -/
theorem addPseudo_length (p : Int) (t : Table) : (addPseudo p t).length = t.length := by
  simp [addPseudo]

/-- Pseudocount addition does not change a row's key or width, and shifts its
cells uniformly. -/
theorem addPseudo_getD (p : Int) (t : Table) (i : Nat) (hi : i < t.length) :
    (addPseudo p t).getD i ("", [])
      = ((t.getD i ("", [])).1, ((t.getD i ("", [])).2).map (fun v => v + p)) := by
  have h1 : i < (addPseudo p t).length := by simpa [addPseudo] using hi
  rw [List.getD_eq_getElem _ _ h1, List.getD_eq_getElem _ _ hi]
  simp [addPseudo]

/-- The column sums of a pseudocounted table: each gains `rows * p`. -/
theorem colSum_addPseudo (p : Int) (t : Table) (j : Nat)
    (hw : ∀ r ∈ t, j < r.2.length) :
    colSum (addPseudo p t) j = colSum t j + t.length * p := by
  unfold colSum addPseudo
  induction t with
  | nil => simp
  | cons r rs ih =>
    have hj : j < r.2.length := hw r (by simp)
    have hj' : j < (r.2.map (fun v => v + p)).length := by simpa using hj
    rw [List.map_cons, List.map_cons, List.sum_cons, List.map_cons, List.sum_cons]
    rw [ih (fun x hx => hw x (by simp [hx]))]
    rw [List.getD_eq_getElem _ _ hj', List.getD_eq_getElem _ _ hj]
    simp [List.getElem_map]
    ring

/-- The ratio table entry at `(i, j)`: the difference of the two normalized
tables at that cell. -/
theorem lvAt_ratioTable (rna dna : Table) (i j : Nat)
    (hir : i < rna.length) (hid : i < dna.length)
    (hjr : j < ((rna.getD i ("", [])).2).length)
    (hjd : j < ((dna.getD i ("", [])).2).length) :
    lvAt (ratioTable rna dna) i j
      = LV.sub (lvAt (normTable rna) i j) (lvAt (normTable dna) i j) := by
  have hir' : i < (normTable rna).length := by simpa [normTable] using hir
  have hid' : i < (normTable dna).length := by simpa [normTable] using hid
  have hi : i < (ratioTable rna dna).length := by
    simp [ratioTable, normTable]
    omega
  have hjr' : j < ((rna.getD i ("", [])).2).length := hjr
  rw [lvAt, List.getD_eq_getElem _ _ hi]
  unfold ratioTable
  rw [List.getElem_zipWith]
  have hgr : (normTable rna)[i] = (rna[i].1, normRow rna rna[i].2) := by
    simp [normTable]
  have hgd : (normTable dna)[i] = (dna[i].1, normRow dna dna[i].2) := by
    simp [normTable]
  rw [hgr, hgd]
  have hjrn : j < (normRow rna rna[i].2).length := by
    have := List.getD_eq_getElem rna ("", []) hir
    rw [this] at hjr
    simpa [normRow] using hjr
  have hjdn : j < (normRow dna dna[i].2).length := by
    have := List.getD_eq_getElem dna ("", []) hid
    rw [this] at hjd
    simpa [normRow] using hjd
  have hz : j < (List.zipWith LV.sub (normRow rna rna[i].2) (normRow dna dna[i].2)).length := by
    rw [List.length_zipWith]
    omega
  simp only []
  rw [List.getD_eq_getElem _ _ hz, List.getElem_zipWith]
  rw [lvAt, lvAt, List.getD_eq_getElem _ _ hir', List.getD_eq_getElem _ _ hid']
  rw [hgr, hgd]
  simp only []
  rw [List.getD_eq_getElem _ _ hjrn, List.getD_eq_getElem _ _ hjdn]

/-- Row `i` of the normalized table. -/
theorem normTable_getD (t : Table) (i : Nat) (hi : i < t.length) :
    (normTable t).getD i ("", [])
      = ((t.getD i ("", [])).1, normRow t (t.getD i ("", [])).2) := by
  have h1 : i < (normTable t).length := by simpa [normTable] using hi
  rw [List.getD_eq_getElem _ _ h1, List.getD_eq_getElem _ _ hi]
  simp [normTable]

/-- The ratio table has one row per aligned input row. -/
theorem ratioTable_length (rna dna : Table) :
    (ratioTable rna dna).length = min rna.length dna.length := by
  simp [ratioTable, normTable]

/-- Row `i` of the ratio table: the RNA key, with the elementwise subtraction
of the two normalized rows. -/
theorem ratioTable_getD (rna dna : Table) (i : Nat)
    (hir : i < rna.length) (hid : i < dna.length) :
    (ratioTable rna dna).getD i ("", [])
      = ((rna.getD i ("", [])).1,
         List.zipWith LV.sub (normRow rna (rna.getD i ("", [])).2)
           (normRow dna (dna.getD i ("", [])).2)) := by
  have hi : i < (ratioTable rna dna).length := by
    rw [ratioTable_length]; omega
  have hir' : i < (normTable rna).length := by simpa [normTable] using hir
  have hid' : i < (normTable dna).length := by simpa [normTable] using hid
  rw [List.getD_eq_getElem _ _ hi]
  unfold ratioTable
  rw [List.getElem_zipWith]
  have hgr : (normTable rna)[i] = (rna[i].1, normRow rna rna[i].2) := by simp [normTable]
  have hgd : (normTable dna)[i] = (dna[i].1, normRow dna dna[i].2) := by simp [normTable]
  rw [hgr, hgd, List.getD_eq_getElem _ _ hir, List.getD_eq_getElem _ _ hid]

/-- The mask step pairs the ratio rows with the original DNA rows. -/
theorem applyCutoff_length (c : Int) (dnaOrig : Table) (rt : List (String × List LV)) :
    (applyCutoff c dnaOrig rt).length = min rt.length dnaOrig.length := by
  simp [applyCutoff]

/-- Row `i` of the masked table: the ratio row's key, its cells kept where the
original DNA count reaches the cutoff and NaN elsewhere. -/
theorem applyCutoff_getD (c : Int) (dnaOrig : Table) (rt : List (String × List LV)) (i : Nat)
    (hi1 : i < rt.length) (hi2 : i < dnaOrig.length) :
    (applyCutoff c dnaOrig rt).getD i ("", [])
      = ((rt.getD i ("", [])).1,
         List.zipWith (fun lv w => if c ≤ w then lv else LV.nan)
           ((rt.getD i ("", [])).2) ((dnaOrig.getD i ("", [])).2)) := by
  have hi : i < (applyCutoff c dnaOrig rt).length := by
    rw [applyCutoff_length]; omega
  rw [List.getD_eq_getElem _ _ hi]
  unfold applyCutoff
  rw [List.getElem_zipWith, List.getD_eq_getElem _ _ hi1, List.getD_eq_getElem _ _ hi2]

/-- The pseudocount branch does not change the number of rows. -/
theorem pseudoTables_length (pv dv : PyVal) (rna dna : Table) :
    (pseudoTables pv dv rna dna).1.length = rna.length
      ∧ (pseudoTables pv dv rna dna).2.length = dna.length := by
  unfold pseudoTables
  split <;> simp [addPseudo]

/-- Pseudocount addition keeps every row key and row width (rows out of range
give the default on both sides). -/
theorem addPseudo_getD_shape (p : Int) (t : Table) (i : Nat) :
    ((addPseudo p t).getD i ("", [])).1 = (t.getD i ("", [])).1
      ∧ ((addPseudo p t).getD i ("", [])).2.length = ((t.getD i ("", [])).2).length := by
  rcases Nat.lt_or_ge i t.length with hi | hi
  · rw [addPseudo_getD _ _ _ hi]
    simp
  · rw [List.getD_eq_default _ _ (by simpa [addPseudo] using hi),
      List.getD_eq_default _ _ hi]
    exact ⟨rfl, rfl⟩

/-- The pseudocount branch does not change row keys or row widths. -/
theorem pseudoTables_getD_shape (pv dv : PyVal) (rna dna : Table) (i : Nat) :
    ((pseudoTables pv dv rna dna).1.getD i ("", [])).1 = (rna.getD i ("", [])).1
      ∧ ((pseudoTables pv dv rna dna).1.getD i ("", [])).2.length
          = ((rna.getD i ("", [])).2).length
      ∧ ((pseudoTables pv dv rna dna).2.getD i ("", [])).1 = (dna.getD i ("", [])).1
      ∧ ((pseudoTables pv dv rna dna).2.getD i ("", [])).2.length
          = ((dna.getD i ("", [])).2).length := by
  unfold pseudoTables
  split
  · simp
  · exact ⟨(addPseudo_getD_shape _ _ _).1, (addPseudo_getD_shape _ _ _).2,
      (addPseudo_getD_shape _ _ _).1, (addPseudo_getD_shape _ _ _).2⟩

/-- The masked table has one row per aligned input row. -/
theorem maskedOf_length (pv dv : PyVal) (c : Int) (rna dna : Table) :
    (maskedOf pv dv c rna dna).length = min rna.length dna.length := by
  unfold maskedOf
  rw [applyCutoff_length, ratioTable_length,
    (pseudoTables_length pv dv rna dna).1, (pseudoTables_length pv dv rna dna).2]
  omega

/-- Row `i` of the masked table: the RNA row key, with the ratio row masked
against the original DNA row. -/
theorem maskedOf_getD (pv dv : PyVal) (c : Int) (rna dna : Table) (i : Nat)
    (hir : i < rna.length) (hid : i < dna.length) :
    (maskedOf pv dv c rna dna).getD i ("", [])
      = ((rna.getD i ("", [])).1,
         List.zipWith (fun lv w => if c ≤ w then lv else LV.nan)
           ((ratioTable (pseudoTables pv dv rna dna).1
              (pseudoTables pv dv rna dna).2).getD i ("", [])).2
           ((dna.getD i ("", [])).2)) := by
  have h1 : i < (ratioTable (pseudoTables pv dv rna dna).1
      (pseudoTables pv dv rna dna).2).length := by
    rw [ratioTable_length, (pseudoTables_length pv dv rna dna).1,
      (pseudoTables_length pv dv rna dna).2]
    omega
  have h2 : i < (pseudoTables pv dv rna dna).1.length := by
    rw [(pseudoTables_length pv dv rna dna).1]; exact hir
  have h3 : i < (pseudoTables pv dv rna dna).2.length := by
    rw [(pseudoTables_length pv dv rna dna).2]; exact hid
  unfold maskedOf
  rw [applyCutoff_getD _ _ _ _ h1 hid, ratioTable_getD _ _ _ h2 h3]
  exact congrArg (fun k => (k, _)) (pseudoTables_getD_shape pv dv rna dna i).1

/-- The width of row `i` of the ratio table of the pseudocounted pair. -/
theorem ratioTable_pseudo_width (pv dv : PyVal) (rna dna : Table) (i : Nat)
    (hir : i < rna.length) (hid : i < dna.length) :
    (((ratioTable (pseudoTables pv dv rna dna).1
        (pseudoTables pv dv rna dna).2).getD i ("", [])).2).length
      = min ((rna.getD i ("", [])).2).length ((dna.getD i ("", [])).2).length := by
  have h2 : i < (pseudoTables pv dv rna dna).1.length := by
    rw [(pseudoTables_length pv dv rna dna).1]; exact hir
  have h3 : i < (pseudoTables pv dv rna dna).2.length := by
    rw [(pseudoTables_length pv dv rna dna).2]; exact hid
  rw [ratioTable_getD _ _ _ h2 h3]
  simp only [List.length_zipWith, normRow, List.length_map, List.length_range]
  rw [(pseudoTables_getD_shape pv dv rna dna i).2.1,
    (pseudoTables_getD_shape pv dv rna dna i).2.2.2]

/-- The cell of the masked table at `(i, j)`: the ratio cell where the
original DNA count reaches the cutoff, NaN where it falls below. -/
theorem lvAt_maskedOf (pv dv : PyVal) (c : Int) (rna dna : Table) (i j : Nat)
    (hir : i < rna.length) (hid : i < dna.length)
    (hjr : j < ((rna.getD i ("", [])).2).length)
    (hjd : j < ((dna.getD i ("", [])).2).length) :
    lvAt (maskedOf pv dv c rna dna) i j
      = if c ≤ cellAt dna i j
        then lvAt (ratioTable (pseudoTables pv dv rna dna).1
               (pseudoTables pv dv rna dna).2) i j
        else LV.nan := by
  have hm : i < (maskedOf pv dv c rna dna).length := by
    rw [maskedOf_length]; omega
  have h1 : i < (ratioTable (pseudoTables pv dv rna dna).1
      (pseudoTables pv dv rna dna).2).length := by
    rw [ratioTable_length, (pseudoTables_length pv dv rna dna).1,
      (pseudoTables_length pv dv rna dna).2]
    omega
  have hw := ratioTable_pseudo_width pv dv rna dna i hir hid
  rw [lvAt, maskedOf_getD pv dv c rna dna i hir hid]
  have hz : j < (List.zipWith (fun lv w => if c ≤ w then lv else LV.nan)
      (((ratioTable (pseudoTables pv dv rna dna).1
          (pseudoTables pv dv rna dna).2).getD i ("", [])).2)
      ((dna.getD i ("", [])).2)).length := by
    rw [List.length_zipWith, hw]
    omega
  have hjrt : j < (((ratioTable (pseudoTables pv dv rna dna).1
      (pseudoTables pv dv rna dna).2).getD i ("", [])).2).length := by
    rw [hw]; omega
  simp only []
  rw [List.getD_eq_getElem _ _ hz, List.getElem_zipWith]
  rw [cellAt, List.getD_eq_getElem _ _ hjd]
  rw [lvAt, List.getD_eq_getElem _ _ hjrt]

/-- The RNA table of the specification's end-to-end example: one row `seq1`
with columns `s1, s2` holding `(10, 20)`. -/
def rnaC1 : Table := [("seq1", [10, 20])]

/-- The DNA table of the specification's end-to-end example: `(5, 25)`. -/
def dnaC1 : Table := [("seq1", [5, 25])]

/-- C1 (counterexample): on the one-row example the column sums of the
pseudocounted tables are the per-column values 11 and 6 (pandas `df.sum()`
sums each column over its rows), not the claimed 32; the program normalizes
each single cell by itself, so every ratio cell is `log2 1` and the written
`Ratio` denotes 0, which differs from the claimed
`(log2(11/32) - log2(6/32) + log2(21/32) - log2(26/32)) / 2`. -/
theorem c1_counterexample :
    colSum (addPseudo 1 rnaC1) 0 = 11 ∧ colSum (addPseudo 1 rnaC1) 0 ≠ 32 ∧
    colSum (addPseudo 1 dnaC1) 0 = 6 ∧ colSum (addPseudo 1 dnaC1) 0 ≠ 32 ∧
    processPair (PyVal.int 1) (PyVal.int 1) 0 rnaC1 dnaC1
      = [("seq1", MedianR.avg (LV.lg 1) (LV.lg 1), 2)] ∧
    (MedianR.avg (LV.lg 1) (LV.lg 1)).interp = FPc.fin 0 ∧
    FPc.fin 0
      ≠ FPc.fin (((Real.logb 2 ((11 : ℝ) / 32) - Real.logb 2 ((6 : ℝ) / 32))
          + (Real.logb 2 ((21 : ℝ) / 32) - Real.logb 2 ((26 : ℝ) / 32))) / 2) := by
  refine ⟨by decide, by decide, by decide, by decide, by decide, ?_, ?_⟩
  · simp [MedianR.interp, LV.interp, FPc.mean2, Real.logb_one]
  · intro h
    rw [FPc.fin.injEq] at h
    have e11 : Real.logb 2 ((11 : ℝ) / 32) = Real.logb 2 11 - Real.logb 2 32 :=
      Real.logb_div (by norm_num) (by norm_num)
    have e6 : Real.logb 2 ((6 : ℝ) / 32) = Real.logb 2 6 - Real.logb 2 32 :=
      Real.logb_div (by norm_num) (by norm_num)
    have e21 : Real.logb 2 ((21 : ℝ) / 32) = Real.logb 2 21 - Real.logb 2 32 :=
      Real.logb_div (by norm_num) (by norm_num)
    have e26 : Real.logb 2 ((26 : ℝ) / 32) = Real.logb 2 26 - Real.logb 2 32 :=
      Real.logb_div (by norm_num) (by norm_num)
    have e231 : Real.logb 2 ((11 : ℝ) * 21) = Real.logb 2 11 + Real.logb 2 21 :=
      Real.logb_mul (by norm_num) (by norm_num)
    have e156 : Real.logb 2 ((6 : ℝ) * 26) = Real.logb 2 6 + Real.logb 2 26 :=
      Real.logb_mul (by norm_num) (by norm_num)
    have hlt : Real.logb 2 ((6 : ℝ) * 26) < Real.logb 2 ((11 : ℝ) * 21) :=
      Real.logb_lt_logb (by norm_num) (by norm_num) (by norm_num)
    rw [e11, e6, e21, e26] at h
    rw [e231, e156] at hlt
    linarith

/-- C1 (amended): on the example the pseudocounted tables are `(11, 21)` and
`(6, 26)`; the column sums are per-column (RNA `11` and `21`, DNA `6` and
`26`); each normalized cell is `log2 1 = 0`, every per-column ratio is
`log2 1`, and the output row for `seq1` has a `Ratio` denoting 0 (the mean of
the two equal middle values) and `#barcodes = 2`. -/
theorem c1_amended_ok :
    addPseudo 1 rnaC1 = [("seq1", [11, 21])] ∧
    addPseudo 1 dnaC1 = [("seq1", [6, 26])] ∧
    colSum (addPseudo 1 rnaC1) 0 = 11 ∧ colSum (addPseudo 1 rnaC1) 1 = 21 ∧
    colSum (addPseudo 1 dnaC1) 0 = 6 ∧ colSum (addPseudo 1 dnaC1) 1 = 26 ∧
    normTable (addPseudo 1 rnaC1) = [("seq1", [LV.lg 1, LV.lg 1])] ∧
    normTable (addPseudo 1 dnaC1) = [("seq1", [LV.lg 1, LV.lg 1])] ∧
    ratioTable (addPseudo 1 rnaC1) (addPseudo 1 dnaC1)
      = [("seq1", [LV.lg 1, LV.lg 1])] ∧
    processPair (PyVal.int 1) (PyVal.int 1) 0 rnaC1 dnaC1
      = [("seq1", MedianR.avg (LV.lg 1) (LV.lg 1), 2)] ∧
    (MedianR.avg (LV.lg 1) (LV.lg 1)).interp = FPc.fin 0 := by
  refine ⟨by decide, by decide, by decide, by decide, by decide, by decide,
    by decide, by decide, by decide, by decide, ?_⟩
  simp [MedianR.interp, LV.interp, FPc.mean2, Real.logb_one]

/-- Valid values distribute over list append. -/
theorem validOf_append (l1 l2 : List LV) :
    validOf (l1 ++ l2) = validOf l1 ++ validOf l2 := by
  simp [validOf, List.filter_append]

/-- A NaN cell contributes no valid value. -/
theorem validOf_nan_cons (l : List LV) : validOf (LV.nan :: l) = validOf l := by
  simp [validOf]

/-- A negative-infinity cell is a valid (non-missing) value. -/
theorem validOf_ninf_cons (l : List LV) :
    validOf (LV.ninf :: l) = LV.ninf :: validOf l := by
  simp [validOf]

/-- The median only looks at the valid values of a row. -/
theorem medianLV_congr (l1 l2 : List LV) (h : validOf l1 = validOf l2) :
    medianLV l1 = medianLV l2 := by
  simp [medianLV, h]

/-- A NaN cell is invisible to the row median. -/
theorem medianLV_skip_nan (u w : List LV) :
    medianLV (u ++ LV.nan :: w) = medianLV (u ++ w) := by
  refine medianLV_congr _ _ ?_
  rw [validOf_append, validOf_append, validOf_nan_cons]

/-- A NaN cell is invisible to the `#barcodes` count. -/
theorem countValid_skip_nan (u w : List LV) :
    countValid (u ++ LV.nan :: w) = countValid (u ++ w) := by
  unfold countValid
  rw [validOf_append, validOf_append, validOf_nan_cons]

/-- A negative-infinity cell is counted by `#barcodes`. -/
theorem countValid_counts_ninf (u w : List LV) :
    countValid (u ++ LV.ninf :: w) = countValid (u ++ w) + 1 := by
  unfold countValid
  rw [validOf_append, validOf_append, validOf_ninf_cons]
  simp
  omega

/-- C2: the cutoff filter is inclusive at the boundary: a cell whose original
DNA count equals the cutoff keeps its ratio, a cell is masked to NaN exactly
when the original DNA count is strictly below the cutoff, masking preserves
the row keys and row widths, and a masked (NaN) cell is invisible to the row
median and to the `#barcodes` count. -/
theorem c2_cutoff_inclusive (pv dv : PyVal) (c : Int) (rna dna : Table) (i j : Nat)
    (hir : i < rna.length) (hid : i < dna.length)
    (hjr : j < ((rna.getD i ("", [])).2).length)
    (hjd : j < ((dna.getD i ("", [])).2).length) :
    (cellAt dna i j = c →
      lvAt (maskedOf pv dv c rna dna) i j
        = lvAt (ratioTable (pseudoTables pv dv rna dna).1
            (pseudoTables pv dv rna dna).2) i j)
    ∧ (c ≤ cellAt dna i j →
      lvAt (maskedOf pv dv c rna dna) i j
        = lvAt (ratioTable (pseudoTables pv dv rna dna).1
            (pseudoTables pv dv rna dna).2) i j)
    ∧ (cellAt dna i j < c → lvAt (maskedOf pv dv c rna dna) i j = LV.nan)
    ∧ (rna.length = dna.length →
        (∀ k, ((dna.getD k ("", [])).2).length = ((rna.getD k ("", [])).2).length) →
        (maskedOf pv dv c rna dna).map (fun r => (r.1, r.2.length))
          = (ratioTable (pseudoTables pv dv rna dna).1
              (pseudoTables pv dv rna dna).2).map (fun r => (r.1, r.2.length)))
    ∧ (∀ u w : List LV,
        medianLV (u ++ LV.nan :: w) = medianLV (u ++ w)
          ∧ countValid (u ++ LV.nan :: w) = countValid (u ++ w)) := by
  have hcell := lvAt_maskedOf pv dv c rna dna i j hir hid hjr hjd
  refine ⟨?_, ?_, ?_, ?_, ?_⟩
  · intro h
    rw [hcell, if_pos (le_of_eq h.symm)]
  · intro h
    rw [hcell, if_pos h]
  · intro h
    rw [hcell, if_neg (not_le.mpr h)]
  · intro hlen hww
    apply List.ext_getElem
    · simp only [List.length_map, maskedOf_length, ratioTable_length,
        (pseudoTables_length pv dv rna dna).1, (pseudoTables_length pv dv rna dna).2]
    · intro n h1 h2
      have hnr : n < rna.length := by
        simp only [List.length_map, maskedOf_length] at h1
        omega
      have hnd : n < dna.length := by
        simp only [List.length_map, maskedOf_length] at h1
        omega
      have hn2 : n < (pseudoTables pv dv rna dna).1.length := by
        rw [(pseudoTables_length pv dv rna dna).1]; exact hnr
      have hn3 : n < (pseudoTables pv dv rna dna).2.length := by
        rw [(pseudoTables_length pv dv rna dna).2]; exact hnd
      have hm : n < (maskedOf pv dv c rna dna).length := by
        rw [maskedOf_length]; omega
      have hrtl : n < (ratioTable (pseudoTables pv dv rna dna).1
          (pseudoTables pv dv rna dna).2).length := by
        rw [ratioTable_length, (pseudoTables_length pv dv rna dna).1,
          (pseudoTables_length pv dv rna dna).2]
        omega
      rw [List.getElem_map, List.getElem_map,
        ← List.getD_eq_getElem _ ("", []) hm, ← List.getD_eq_getElem _ ("", []) hrtl]
      rw [maskedOf_getD pv dv c rna dna n hnr hnd, ratioTable_getD _ _ _ hn2 hn3]
      have hkey := (pseudoTables_getD_shape pv dv rna dna n).1
      have hwidth := ratioTable_pseudo_width pv dv rna dna n hnr hnd
      rw [ratioTable_getD _ _ _ hn2 hn3] at hwidth
      simp only [hkey] at hwidth ⊢
      rw [Prod.mk.injEq]
      refine ⟨rfl, ?_⟩
      rw [List.length_zipWith, hwidth, hww n]
      omega
  · intro u w
    exact ⟨medianLV_skip_nan u w, countValid_skip_nan u w⟩

/-- C2 witness: at an original DNA count exactly equal to the cutoff, the
ratio cell of the concrete pair is retained. -/
theorem c2_cutoff_inclusive_witness :
    lvAt (maskedOf (PyVal.int 1) (PyVal.int 1) 7 [("r", [1])] [("r", [7])]) 0 0
      = lvAt (ratioTable
          (pseudoTables (PyVal.int 1) (PyVal.int 1) [("r", [1])] [("r", [7])]).1
          (pseudoTables (PyVal.int 1) (PyVal.int 1) [("r", [1])] [("r", [7])]).2) 0 0 :=
  (c2_cutoff_inclusive (PyVal.int 1) (PyVal.int 1) 7 [("r", [1])] [("r", [7])] 0 0
    (by decide) (by decide) (by decide) (by decide)).1 (by decide)

/-- C3: which cells the cutoff filter masks is decided on the original,
pre-pseudocount DNA counts alone: under any two pseudocount settings, a cell
is masked in both runs exactly when its original DNA count is below the
cutoff, and otherwise both runs retain their (setting-dependent) ratio
values. -/
theorem c3_mask_pseudocount_independent (pv dv pv2 dv2 : PyVal) (c : Int)
    (rna dna : Table) (i j : Nat)
    (hir : i < rna.length) (hid : i < dna.length)
    (hjr : j < ((rna.getD i ("", [])).2).length)
    (hjd : j < ((dna.getD i ("", [])).2).length) :
    (cellAt dna i j < c →
      lvAt (maskedOf pv dv c rna dna) i j = LV.nan
        ∧ lvAt (maskedOf pv2 dv2 c rna dna) i j = LV.nan)
    ∧ (c ≤ cellAt dna i j →
      lvAt (maskedOf pv dv c rna dna) i j
          = lvAt (ratioTable (pseudoTables pv dv rna dna).1
              (pseudoTables pv dv rna dna).2) i j
        ∧ lvAt (maskedOf pv2 dv2 c rna dna) i j
          = lvAt (ratioTable (pseudoTables pv2 dv2 rna dna).1
              (pseudoTables pv2 dv2 rna dna).2) i j) := by
  have h1 := lvAt_maskedOf pv dv c rna dna i j hir hid hjr hjd
  have h2 := lvAt_maskedOf pv2 dv2 c rna dna i j hir hid hjr hjd
  constructor
  · intro h
    rw [h1, h2, if_neg (not_le.mpr h), if_neg (not_le.mpr h)]
    exact ⟨rfl, rfl⟩
  · intro h
    rw [h1, h2, if_pos h, if_pos h]
    exact ⟨rfl, rfl⟩

/-- C3 witness: with cutoff 5 and an original DNA count 3, the cell is masked
both under pseudocounts (1, 1) and under pseudocounts (9, 4). -/
theorem c3_mask_pseudocount_independent_witness :
    lvAt (maskedOf (PyVal.int 1) (PyVal.int 1) 5 [("r", [2])] [("r", [3])]) 0 0 = LV.nan
      ∧ lvAt (maskedOf (PyVal.int 9) (PyVal.int 4) 5 [("r", [2])] [("r", [3])]) 0 0
          = LV.nan :=
  (c3_mask_pseudocount_independent (PyVal.int 1) (PyVal.int 1) (PyVal.int 9) (PyVal.int 4)
    5 [("r", [2])] [("r", [3])] 0 0 (by decide) (by decide) (by decide) (by decide)).1
    (by decide)

/-- When all rows agree between two columns, so do the column sums. -/
theorem colSum_congr (t : Table) (j j2 : Nat)
    (hc : ∀ r ∈ t, r.2.getD j 0 = r.2.getD j2 0) : colSum t j = colSum t j2 := by
  unfold colSum
  exact congrArg List.sum (List.map_congr_left (fun r hr => hc r hr))

/-- C8: for tables whose rows hold one repeated value per row (all columns
equal), each row's normalized value `log2(cell / column_total)` is the same in
every column, and hence so is every per-column RNA/DNA ratio of such a pair:
the ratios depend only on composition, not on per-column scale. -/
theorem c8_composition_only (rna dna : Table) (w : Nat)
    (hrw : ∀ r ∈ rna, r.2.length = w) (hdw : ∀ r ∈ dna, r.2.length = w)
    (hrc : ∀ r ∈ rna, ∀ j, j < w → ∀ j2, j2 < w → r.2.getD j 0 = r.2.getD j2 0)
    (hdc : ∀ r ∈ dna, ∀ j, j < w → ∀ j2, j2 < w → r.2.getD j 0 = r.2.getD j2 0)
    (i j j2 : Nat) (hj : j < w) (hj2 : j2 < w) :
    (i < rna.length → lvAt (normTable rna) i j = lvAt (normTable rna) i j2)
    ∧ (i < rna.length → i < dna.length →
        lvAt (ratioTable rna dna) i j = lvAt (ratioTable rna dna) i j2) := by
  have hcellr : ∀ k, k < rna.length → cellAt rna k j = cellAt rna k j2 := by
    intro k hk
    unfold cellAt
    rw [List.getD_eq_getElem _ _ hk]
    exact hrc rna[k] (List.getElem_mem hk) j hj j2 hj2
  have hcelld : ∀ k, k < dna.length → cellAt dna k j = cellAt dna k j2 := by
    intro k hk
    unfold cellAt
    rw [List.getD_eq_getElem _ _ hk]
    exact hdc dna[k] (List.getElem_mem hk) j hj j2 hj2
  have hsumr : colSum rna j = colSum rna j2 :=
    colSum_congr rna j j2 (fun r hr => hrc r hr j hj j2 hj2)
  have hsumd : colSum dna j = colSum dna j2 :=
    colSum_congr dna j j2 (fun r hr => hdc r hr j hj j2 hj2)
  have hnr : ∀ k, k < rna.length →
      lvAt (normTable rna) k j = lvAt (normTable rna) k j2 := by
    intro k hk
    have hwid : ((rna.getD k ("", [])).2).length = w := by
      rw [List.getD_eq_getElem _ _ hk]
      exact hrw rna[k] (List.getElem_mem hk)
    rw [lvAt_normTable rna k j hk (by omega), lvAt_normTable rna k j2 hk (by omega),
      hcellr k hk, hsumr]
  have hnd : ∀ k, k < dna.length →
      lvAt (normTable dna) k j = lvAt (normTable dna) k j2 := by
    intro k hk
    have hwid : ((dna.getD k ("", [])).2).length = w := by
      rw [List.getD_eq_getElem _ _ hk]
      exact hdw dna[k] (List.getElem_mem hk)
    rw [lvAt_normTable dna k j hk (by omega), lvAt_normTable dna k j2 hk (by omega),
      hcelld k hk, hsumd]
  refine ⟨fun hi => hnr i hi, fun hi hi2 => ?_⟩
  have hwr : ((rna.getD i ("", [])).2).length = w := by
    rw [List.getD_eq_getElem _ _ hi]
    exact hrw rna[i] (List.getElem_mem hi)
  have hwd : ((dna.getD i ("", [])).2).length = w := by
    rw [List.getD_eq_getElem _ _ hi2]
    exact hdw dna[i] (List.getElem_mem hi2)
  rw [lvAt_ratioTable rna dna i j hi hi2 (by omega) (by omega),
    lvAt_ratioTable rna dna i j2 hi hi2 (by omega) (by omega),
    hnr i hi, hnd i hi2]

/-- C8 witness: on a concrete all-equal-columns pair, row 0's two ratio cells
coincide. -/
theorem c8_composition_only_witness :
    lvAt (ratioTable [("a", [2, 2]), ("b", [5, 5])] [("a", [1, 1]), ("b", [3, 3])]) 0 0
      = lvAt (ratioTable [("a", [2, 2]), ("b", [5, 5])] [("a", [1, 1]), ("b", [3, 3])]) 0 1 :=
  (c8_composition_only [("a", [2, 2]), ("b", [5, 5])] [("a", [1, 1]), ("b", [3, 3])] 2
    (by decide) (by decide) (by decide) (by decide) 0 0 1 (by decide) (by decide)).2
    (by decide) (by decide)

/-- The masked ratio values of row `i` (what the median and the count see). -/
def maskedRow (pv dv : PyVal) (c : Int) (rna dna : Table) (i : Nat) : List LV :=
  ((maskedOf pv dv c rna dna).getD i ("", [])).2

/-- Output row `i` carries the key, the median and the count of masked row
`i`. -/
theorem processPair_getD (pv dv : PyVal) (c : Int) (rna dna : Table) (i : Nat)
    (hm : i < (maskedOf pv dv c rna dna).length) :
    (processPair pv dv c rna dna).getD i ("", MedianR.missing, 0)
      = (((maskedOf pv dv c rna dna).getD i ("", [])).1,
         medianLV (maskedRow pv dv c rna dna i),
         countValid (maskedRow pv dv c rna dna i)) := by
  unfold processPair summarize maskedRow
  have hmap : i < ((maskedOf pv dv c rna dna).map
      (fun r => (r.1, medianLV r.2, countValid r.2))).length := by
    simpa using hm
  rw [List.getD_eq_getElem _ _ hmap, List.getElem_map, List.getD_eq_getElem _ _ hm]

/-- C4: the output `Ratio` of each row is the median over exactly the valid
(non-masked, non-missing) values of that row: there is a sorted arrangement of
those values such that an odd count picks its middle element, a positive even
count yields the IEEE mean of its two middle elements, and a zero count yields
a missing value; `#barcodes` is the number of valid values. -/
theorem c4_median_over_valid (pv dv : PyVal) (c : Int) (rna dna : Table) (i : Nat)
    (hm : i < (maskedOf pv dv c rna dna).length) :
    ∃ s : List LV,
      s.Perm (validOf (maskedRow pv dv c rna dna i))
      ∧ s.Sorted LVle
      ∧ ((processPair pv dv c rna dna).getD i ("", MedianR.missing, 0)).2.2
          = (validOf (maskedRow pv dv c rna dna i)).length
      ∧ ((validOf (maskedRow pv dv c rna dna i)).length = 0 →
          ((processPair pv dv c rna dna).getD i ("", MedianR.missing, 0)).2.1
            = MedianR.missing)
      ∧ ((validOf (maskedRow pv dv c rna dna i)).length % 2 = 1 →
          ((processPair pv dv c rna dna).getD i ("", MedianR.missing, 0)).2.1
            = MedianR.single
                (s.getD (((validOf (maskedRow pv dv c rna dna i)).length - 1) / 2) LV.nan))
      ∧ ((validOf (maskedRow pv dv c rna dna i)).length % 2 = 0 →
          (validOf (maskedRow pv dv c rna dna i)).length ≠ 0 →
          ((processPair pv dv c rna dna).getD i ("", MedianR.missing, 0)).2.1
            = MedianR.avg
                (s.getD ((validOf (maskedRow pv dv c rna dna i)).length / 2 - 1) LV.nan)
                (s.getD ((validOf (maskedRow pv dv c rna dna i)).length / 2) LV.nan)
          ∧ (((processPair pv dv c rna dna).getD i ("", MedianR.missing, 0)).2.1).interp
              = FPc.mean2
                  ((s.getD ((validOf (maskedRow pv dv c rna dna i)).length / 2 - 1)
                      LV.nan).interp)
                  ((s.getD ((validOf (maskedRow pv dv c rna dna i)).length / 2)
                      LV.nan).interp)) := by
  rw [processPair_getD pv dv c rna dna i hm]
  refine ⟨List.insertionSort LVle (validOf (maskedRow pv dv c rna dna i)),
    List.perm_insertionSort LVle _, List.sorted_insertionSort LVle _, rfl, ?_, ?_, ?_⟩
  all_goals
    have hlen : (List.insertionSort LVle (validOf (maskedRow pv dv c rna dna i))).length
        = (validOf (maskedRow pv dv c rna dna i)).length :=
      (List.perm_insertionSort LVle _).length_eq
  · intro h0
    simp only [medianLV]
    rw [if_pos (by rw [hlen, h0])]
  · intro hodd
    simp only [medianLV]
    rw [if_neg (by omega), if_pos (by rw [hlen]; exact hodd), hlen]
  · intro heven hne
    simp only [medianLV]
    rw [if_neg (by omega), if_neg (by rw [hlen]; omega), hlen]
    exact ⟨rfl, rfl⟩

/-- C4 witness: a concrete row with two valid values satisfies the median
characterization. -/
theorem c4_median_over_valid_witness :
    ∃ s : List LV,
      s.Perm (validOf (maskedRow (PyVal.int 1) (PyVal.int 1) 0 [("a", [1, 2])] [("a", [1, 1])] 0))
      ∧ s.Sorted LVle
      ∧ ((processPair (PyVal.int 1) (PyVal.int 1) 0 [("a", [1, 2])] [("a", [1, 1])]).getD 0
            ("", MedianR.missing, 0)).2.2
          = (validOf (maskedRow (PyVal.int 1) (PyVal.int 1) 0 [("a", [1, 2])] [("a", [1, 1])] 0)).length
      ∧ ((validOf (maskedRow (PyVal.int 1) (PyVal.int 1) 0 [("a", [1, 2])] [("a", [1, 1])] 0)).length = 0 →
          ((processPair (PyVal.int 1) (PyVal.int 1) 0 [("a", [1, 2])] [("a", [1, 1])]).getD 0
              ("", MedianR.missing, 0)).2.1
            = MedianR.missing)
      ∧ ((validOf (maskedRow (PyVal.int 1) (PyVal.int 1) 0 [("a", [1, 2])] [("a", [1, 1])] 0)).length % 2 = 1 →
          ((processPair (PyVal.int 1) (PyVal.int 1) 0 [("a", [1, 2])] [("a", [1, 1])]).getD 0
              ("", MedianR.missing, 0)).2.1
            = MedianR.single
                (s.getD (((validOf (maskedRow (PyVal.int 1) (PyVal.int 1) 0 [("a", [1, 2])] [("a", [1, 1])] 0)).length - 1) / 2) LV.nan))
      ∧ ((validOf (maskedRow (PyVal.int 1) (PyVal.int 1) 0 [("a", [1, 2])] [("a", [1, 1])] 0)).length % 2 = 0 →
          (validOf (maskedRow (PyVal.int 1) (PyVal.int 1) 0 [("a", [1, 2])] [("a", [1, 1])] 0)).length ≠ 0 →
          ((processPair (PyVal.int 1) (PyVal.int 1) 0 [("a", [1, 2])] [("a", [1, 1])]).getD 0
              ("", MedianR.missing, 0)).2.1
            = MedianR.avg
                (s.getD ((validOf (maskedRow (PyVal.int 1) (PyVal.int 1) 0 [("a", [1, 2])] [("a", [1, 1])] 0)).length / 2 - 1) LV.nan)
                (s.getD ((validOf (maskedRow (PyVal.int 1) (PyVal.int 1) 0 [("a", [1, 2])] [("a", [1, 1])] 0)).length / 2) LV.nan)
          ∧ (((processPair (PyVal.int 1) (PyVal.int 1) 0 [("a", [1, 2])] [("a", [1, 1])]).getD 0
                ("", MedianR.missing, 0)).2.1).interp
              = FPc.mean2
                  ((s.getD ((validOf (maskedRow (PyVal.int 1) (PyVal.int 1) 0 [("a", [1, 2])] [("a", [1, 1])] 0)).length / 2 - 1)
                      LV.nan).interp)
                  ((s.getD ((validOf (maskedRow (PyVal.int 1) (PyVal.int 1) 0 [("a", [1, 2])] [("a", [1, 1])] 0)).length / 2)
                      LV.nan).interp)) :=
  c4_median_over_valid (PyVal.int 1) (PyVal.int 1) 0 [("a", [1, 2])] [("a", [1, 1])] 0
    (by decide)

/-- The RNA table of the log2-of-zero counterexample: a zero count in a
column whose total is positive. -/
def rnaC5 : Table := [("a", [0]), ("b", [1])]

/-- The DNA table of the log2-of-zero counterexample. -/
def dnaC5 : Table := [("a", [1]), ("b", [1])]

/-- C5 (counterexample): with zero pseudocounts, row `a` takes `log2` of the
exact zero `0 / 1`; the result is `-inf`, not a missing value: it survives the
ratio subtraction, is the row's median, and is counted by `#barcodes` (which
is 1, not 0), contradicting the claim that a `log2`-of-zero cell is skipped by
the median and the count. -/
theorem c5_counterexample :
    fdiv (cellAt rnaC5 0 0) (colSum rnaC5 0) = FV.fin 0
    ∧ log2F (FV.fin 0) = LV.ninf
    ∧ lvAt (maskedOf (PyVal.int 0) (PyVal.int 0) 0 rnaC5 dnaC5) 0 0 = LV.ninf
    ∧ processPair (PyVal.int 0) (PyVal.int 0) 0 rnaC5 dnaC5
        = [("a", MedianR.single LV.ninf, 1), ("b", MedianR.single (LV.lg 2), 1)]
    ∧ MedianR.single LV.ninf ≠ MedianR.missing
    ∧ (1 : Nat) ≠ 0 := by
  refine ⟨by decide, by decide, by decide, by decide, by decide, by decide⟩

/-- C5 (amended): dividing the (necessarily zero) cell of a zero-total column
by that zero total gives NaN, and `log2` of a negative value gives NaN; NaN
propagates through the ratio subtraction and is skipped by both the row median
and the `#barcodes` count.  But `log2` of an exact zero gives `-inf`, and a
nonzero cell over a zero total gives a signed infinity; infinities are not
missing values and are counted as valid. -/
theorem c5_amended_ok :
    fdiv 0 0 = FV.nan
    ∧ (∀ v : Int, 0 < v → fdiv v 0 = FV.pinf)
    ∧ (∀ v : Int, v < 0 → fdiv v 0 = FV.ninf)
    ∧ (∀ q : ℚ, q < 0 → log2F (FV.fin q) = LV.nan)
    ∧ log2F FV.nan = LV.nan
    ∧ log2F (FV.fin 0) = LV.ninf
    ∧ (∀ x : LV, LV.sub LV.nan x = LV.nan)
    ∧ (∀ x : LV, LV.sub x LV.nan = LV.nan)
    ∧ (∀ u w : List LV, medianLV (u ++ LV.nan :: w) = medianLV (u ++ w))
    ∧ (∀ u w : List LV, countValid (u ++ LV.nan :: w) = countValid (u ++ w))
    ∧ (∀ u w : List LV, countValid (u ++ LV.ninf :: w) = countValid (u ++ w) + 1) := by
  refine ⟨by decide, ?_, ?_, ?_, by decide, by decide, ?_, ?_,
    medianLV_skip_nan, countValid_skip_nan, countValid_counts_ninf⟩
  · intro v hv
    unfold fdiv
    rw [if_pos rfl, if_neg (by omega), if_pos hv]
  · intro v hv
    unfold fdiv
    rw [if_pos rfl, if_neg (by omega), if_neg (by omega)]
  · intro q hq
    simp [log2F, hq]
  · intro x
    cases x <;> rfl
  · intro x
    cases x <;> rfl

/-- C5 witness: a positive cell over a zero column total is `+inf`. -/
theorem c5_amended_ok_witness : fdiv 3 0 = FV.pinf :=
  c5_amended_ok.2.1 3 (by decide)

/-- C6 (counterexample): a non-integer `--pcr` such as `abc` does not reach
the warning branch: `argparse` (`type=int`) rejects it and the whole program
aborts with an error before any pair is processed, so no output is produced
and the run does not complete. -/
theorem c6_counterexample :
    pyIntVal "abc" = none
    ∧ runProgram (some "abc") none none [rnaC1] [dnaC1] "out"
        = Except.error ("argument error: invalid int value: abc") := by
  exact ⟨rfl, rfl⟩

/-- C6 (amended): any `--pcr` value that Python's `int` cannot parse aborts
the run during argument parsing with an `argparse` error; the loop, the
warning branch and the output write are never reached. -/
theorem c6_amended_ok (s : String) (h : pyIntVal s = none)
    (pcdStr cutoffStr : Option String) (rnas dnas : List Table) (outfile : String) :
    runProgram (some s) pcdStr cutoffStr rnas dnas outfile
      = Except.error ("argument error: invalid int value: " ++ s) := by
  have hp : parseIntArg (PyVal.int 1) (some s)
      = Except.error ("argument error: invalid int value: " ++ s) := by
    simp [parseIntArg, h]
  unfold runProgram
  rw [hp]
  rfl

/-- C6 witness: the amended behavior at the concrete string `abc`. -/
theorem c6_amended_ok_witness :
    runProgram (some "abc") none none [rnaC1] [dnaC1] "out"
      = Except.error ("argument error: invalid int value: " ++ "abc") :=
  c6_amended_ok "abc" (by decide) none none [rnaC1] [dnaC1] "out"

/-- The RNA table of the long-pseudocount counterexample. -/
def rnaC9 : Table := [("a", [1]), ("b", [3])]

/-- The DNA table of the long-pseudocount counterexample. -/
def dnaC9 : Table := [("a", [1]), ("b", [1])]

/-- C9 (counterexample): the script is Python 2, where `int(string)` returns a
`long` once the value exceeds `sys.maxint`; `argparse` then succeeds without
aborting, the `isinstance(..., int)` check fails, the warning branch runs, and
the pair is processed with the tables unmodified — the produced output differs
from what pseudocount addition would have produced, so the fallback branch is
reachable and pseudocounts are not added on every processed run. -/
theorem c9_counterexample :
    pyIntVal "18446744073709551616" = some (PyVal.long 18446744073709551616)
    ∧ (PyVal.long 18446744073709551616).isInt = false
    ∧ runProgram (some "18446744073709551616") none (some "0") [rnaC9] [dnaC9] "out"
        = Except.ok ([("out",
            summarize (applyCutoff 0 dnaC9 (ratioTable rnaC9 dnaC9)))], none)
    ∧ summarize (applyCutoff 0 dnaC9 (ratioTable rnaC9 dnaC9))
        = [("a", MedianR.single (LV.lg (Rat.divInt 1 2)), 1),
           ("b", MedianR.single (LV.lg (Rat.divInt 3 2)), 1)]
    ∧ summarize (applyCutoff 0 dnaC9 (ratioTable rnaC9 dnaC9))
        ≠ summarize (applyCutoff 0 dnaC9
            (ratioTable (addPseudo 18446744073709551616 rnaC9) (addPseudo 1 dnaC9))) := by
  set_option maxRecDepth 100000 in
  refine ⟨by decide, by decide, by decide, by decide, by decide⟩

/-- C9 (amended): the fallback branch is unreachable exactly for platform-int
option values: a run whose parsed `--pcr`/`--pcd` are plain ints (every value
in `[-sys.maxint - 1, sys.maxint]`, including the defaults) passes the
`isinstance` check and adds both pseudocounts on every processed pair; a value
beyond the platform range parses as a `long` without aborting, fails the
check, and the pair is processed with the raw tables. -/
theorem c9_amended_ok :
    (∀ n m : Int, ∀ c : Int, ∀ rna dna : Table,
      processPair (PyVal.int n) (PyVal.int m) c rna dna
        = summarize (applyCutoff c dna
            (ratioTable (addPseudo n rna) (addPseudo m dna))))
    ∧ (∀ pv dv : PyVal, ∀ c : Int, ∀ rna dna : Table,
        pv.isInt = false ∨ dv.isInt = false →
        processPair pv dv c rna dna
          = summarize (applyCutoff c dna (ratioTable rna dna)))
    ∧ (∀ n : Int, -pyMaxInt - 1 ≤ n → n ≤ pyMaxInt → mkPyInt n = PyVal.int n)
    ∧ (∀ n : Int, pyMaxInt < n ∨ n < -pyMaxInt - 1 → mkPyInt n = PyVal.long n)
    ∧ (∀ dflt v : PyVal, ∀ s : String,
        parseIntArg dflt (some s) = Except.ok v → pyIntVal s = some v) := by
  refine ⟨fun n m c rna dna => rfl, ?_, ?_, ?_, ?_⟩
  · intro pv dv c rna dna h
    cases pv <;> cases dv <;> simp [PyVal.isInt] at h <;> rfl
  · intro n h1 h2
    rw [mkPyInt, if_pos ⟨h1, h2⟩]
  · intro n h
    rw [mkPyInt, if_neg (by rcases h with h | h <;> omega)]
  · intro dflt v s h
    simp only [parseIntArg] at h
    cases heq : pyIntVal s with
    | none => rw [heq] at h; exact absurd h (by simp)
    | some u => rw [heq] at h; simp at h; rw [h]

/-- C9 witness: in-range values become plain ints and out-of-range values
become longs. -/
theorem c9_amended_ok_witness :
    mkPyInt 5 = PyVal.int 5
      ∧ mkPyInt 18446744073709551616 = PyVal.long 18446744073709551616 :=
  ⟨c9_amended_ok.2.2.1 5 (by decide) (by decide),
   c9_amended_ok.2.2.2.1 18446744073709551616 (Or.inl (by decide))⟩

/-- With equally long file lists, the loop processes every aligned pair, each
iteration writing its output to the single output path, and never crashes. -/
theorem runLoop_zip (pv dv : PyVal) (c : Int) (outfile : String) :
    ∀ (rnas dnas : List Table), rnas.length = dnas.length →
      runLoop pv dv c outfile (zipLongest rnas dnas)
        = ((rnas.zip dnas).map (fun p => (outfile, processPair pv dv c p.1 p.2)), none) := by
  intro rnas
  induction rnas with
  | nil =>
    intro dnas h
    cases dnas with
    | nil => rfl
    | cons d ds => simp at h
  | cons r rs ih =>
    intro dnas h
    cases dnas with
    | nil => simp at h
    | cons d ds =>
      have h' : rs.length = ds.length := by simpa using h
      simp [zipLongest, runLoop, ih ds h']

/-- Replaying writes that all target the same path leaves that path holding
the last written table (or nothing when there was no write). -/
theorem applyWrites_same_path (o : String) :
    ∀ (l : List OutTable) (acc : String → Option OutTable),
      (List.foldl (fun fs w => fun p => if p = w.1 then some w.2 else fs p) acc
          (l.map (fun x => (o, x)))) o
        = if l = [] then acc o else l.getLast? := by
  intro l
  induction l with
  | nil => intro acc; simp
  | cons x xs ih =>
    intro acc
    rw [List.map_cons, List.foldl_cons, ih]
    cases xs with
    | nil => simp
    | cons y ys =>
      rw [if_neg (by simp), if_neg (by simp), List.getLast?_cons_cons]

/-- Equally long nonempty lists zip to a list ending in the pair of their last
elements. -/
theorem zip_getLast {α β : Type} :
    ∀ (as : List α) (bs : List β), as.length = bs.length → as ≠ [] →
      ∃ a b, as.getLast? = some a ∧ bs.getLast? = some b
        ∧ (as.zip bs).getLast? = some (a, b) := by
  intro as
  induction as with
  | nil => intro bs h hne; exact absurd rfl hne
  | cons a as' ih =>
    intro bs h hne
    cases bs with
    | nil => simp at h
    | cons b bs' =>
      cases as' with
      | nil =>
        cases bs' with
        | nil => exact ⟨a, b, rfl, rfl, rfl⟩
        | cons b2 bs2 => simp at h
      | cons a2 as2 =>
        cases bs' with
        | nil => simp at h
        | cons b2 bs2 =>
          obtain ⟨x, y, hx, hy, hxy⟩ := ih (b2 :: bs2) (by simpa using h) (by simp)
          refine ⟨x, y, by rw [List.getLast?_cons_cons]; exact hx,
            by rw [List.getLast?_cons_cons]; exact hy, ?_⟩
          rw [List.zip_cons_cons, List.zip_cons_cons, List.getLast?_cons_cons]
          rw [List.zip_cons_cons] at hxy
          exact hxy

/-- C7: with several equally long RNA/DNA pairs, the loop never crashes, every
pair performs one write and all writes target the same output path, and after
replaying the writes the output file holds exactly the result of the last
pair. -/
theorem c7_last_pair_wins (pv dv : PyVal) (c : Int) (outfile : String)
    (rnas dnas : List Table) (h : rnas.length = dnas.length) (hne : rnas ≠ []) :
    (runLoop pv dv c outfile (zipLongest rnas dnas)).2 = none
    ∧ (runLoop pv dv c outfile (zipLongest rnas dnas)).1.map Prod.fst
        = List.replicate rnas.length outfile
    ∧ ∃ rl dl, rnas.getLast? = some rl ∧ dnas.getLast? = some dl
        ∧ applyWrites (runLoop pv dv c outfile (zipLongest rnas dnas)).1 outfile
            = some (processPair pv dv c rl dl) := by
  rw [runLoop_zip pv dv c outfile rnas dnas h]
  refine ⟨rfl, ?_, ?_⟩
  · rw [List.map_map]
    have : (Prod.fst ∘ fun p : Table × Table => (outfile, processPair pv dv c p.1 p.2))
        = fun _ => outfile := rfl
    rw [this, List.map_const', List.length_zip, h, min_self]
  · obtain ⟨rl, dl, hrl, hdl, hzl⟩ := zip_getLast rnas dnas h hne
    refine ⟨rl, dl, hrl, hdl, ?_⟩
    unfold applyWrites
    have hmm : (rnas.zip dnas).map (fun p => (outfile, processPair pv dv c p.1 p.2))
        = ((rnas.zip dnas).map (fun p => processPair pv dv c p.1 p.2)).map
            (fun x => (outfile, x)) := by
      rw [List.map_map]
      rfl
    rw [hmm, applyWrites_same_path]
    have hzne : (rnas.zip dnas).map (fun p => processPair pv dv c p.1 p.2) ≠ [] := by
      intro hemp
      rw [List.map_eq_nil_iff] at hemp
      rw [hemp] at hzl
      simp at hzl
    rw [if_neg hzne, List.getLast?_map, hzl]
    rfl

/-- C7 witness: with two concrete pairs written to one path, the file ends up
holding the second pair's output. -/
theorem c7_last_pair_wins_witness :
    ∃ rl dl, ([rnaC1, rnaC5] : List Table).getLast? = some rl
      ∧ ([dnaC1, dnaC5] : List Table).getLast? = some dl
      ∧ applyWrites (runLoop (PyVal.int 1) (PyVal.int 1) 0 "out"
            (zipLongest [rnaC1, rnaC5] [dnaC1, dnaC5])).1 "out"
          = some (processPair (PyVal.int 1) (PyVal.int 1) 0 rl dl) :=
  (c7_last_pair_wins (PyVal.int 1) (PyVal.int 1) 0 "out" [rnaC1, rnaC5] [dnaC1, dnaC5]
    (by decide) (by decide)).2.2

/-- A row all of whose DNA counts fall below the cutoff has no valid value
left after masking. -/
theorem validOf_all_masked (c : Int) :
    ∀ (lvs : List LV) (dvs : List Int), (∀ v ∈ dvs, v < c) →
      validOf (List.zipWith (fun lv w => if c ≤ w then lv else LV.nan) lvs dvs) = [] := by
  intro lvs
  induction lvs with
  | nil => intro dvs h; simp [validOf]
  | cons x xs ih =>
    intro dvs h
    cases dvs with
    | nil => simp [validOf]
    | cons d ds =>
      have hd : d < c := h d (by simp)
      rw [List.zipWith_cons_cons, if_neg (not_le.mpr hd), validOf_nan_cons]
      exact ih ds (fun v hv => h v (by simp [hv]))

/-- A row with no valid value has a missing median. -/
theorem medianLV_eq_missing (l : List LV) (h : validOf l = []) :
    medianLV l = MedianR.missing := by
  simp [medianLV, h]

/-- C10: for every aligned pair the written output has exactly one row per
loaded RNA row key, in input order; a row all of whose cells are masked is
still emitted, with a missing `Ratio` and `#barcodes = 0`. -/
theorem c10_output_rows (pv dv : PyVal) (c : Int) (rna dna : Table)
    (hlen : dna.length = rna.length) :
    (processPair pv dv c rna dna).map (fun r => r.1) = rna.map (fun r => r.1)
    ∧ (∀ i, i < rna.length →
        (∀ v ∈ (dna.getD i ("", [])).2, v < c) →
        (processPair pv dv c rna dna).getD i ("", MedianR.missing, 0)
          = ((rna.getD i ("", [])).1, MedianR.missing, 0)) := by
  constructor
  · apply List.ext_getElem
    · simp only [List.length_map]
      unfold processPair summarize
      rw [List.length_map, maskedOf_length]
      omega
    · intro n h1 h2
      have hnr : n < rna.length := by simpa using h2
      have hnd : n < dna.length := by omega
      have hm : n < (maskedOf pv dv c rna dna).length := by
        rw [maskedOf_length]; omega
      rw [List.getElem_map, List.getElem_map]
      have hpp : n < (processPair pv dv c rna dna).length := by
        unfold processPair summarize
        rw [List.length_map]
        exact hm
      rw [← List.getD_eq_getElem _ ("", MedianR.missing, 0) hpp,
        processPair_getD pv dv c rna dna n hm,
        maskedOf_getD pv dv c rna dna n hnr hnd]
      rw [List.getD_eq_getElem _ _ hnr]
  · intro i hi hmask
    have hid : i < dna.length := by omega
    have hm : i < (maskedOf pv dv c rna dna).length := by
      rw [maskedOf_length]; omega
    rw [processPair_getD pv dv c rna dna i hm]
    have hrow : maskedRow pv dv c rna dna i
        = List.zipWith (fun lv w => if c ≤ w then lv else LV.nan)
            ((ratioTable (pseudoTables pv dv rna dna).1
               (pseudoTables pv dv rna dna).2).getD i ("", [])).2
            ((dna.getD i ("", [])).2) := by
      unfold maskedRow
      rw [maskedOf_getD pv dv c rna dna i hi hid]
    have hvalid : validOf (maskedRow pv dv c rna dna i) = [] := by
      rw [hrow]
      exact validOf_all_masked c _ _ hmask
    rw [maskedOf_getD pv dv c rna dna i hi hid]
    rw [Prod.mk.injEq]
    refine ⟨rfl, ?_⟩
    rw [Prod.mk.injEq]
    exact ⟨medianLV_eq_missing _ hvalid, by rw [countValid, hvalid]; rfl⟩

/-- C10 witness: a concrete fully-masked row is still written, with a missing
ratio and a zero barcode count. -/
theorem c10_output_rows_witness :
    (processPair (PyVal.int 1) (PyVal.int 1) 5 [("a", [1])] [("a", [3])]).getD 0
        ("", MedianR.missing, 0)
      = ("a", MedianR.missing, 0) :=
  (c10_output_rows (PyVal.int 1) (PyVal.int 1) 5 [("a", [1])] [("a", [3])]
    (by decide)).2 0 (by decide) (by decide)
